import Mathlib

/-!
Verification development for the highlighter server repository
(`server/server.py`, `server/tokenizer.py`).

The Python code is shallowly embedded:

* a Python `str` is embedded as a Lean `String` where only whole-string
  operations occur, and as a `List Char` where the code works character by
  character (the tokenizer);
* a Python `dict` is embedded as an insertion-ordered association list
  `List (key × value)`; dict iteration order is the list order, matching
  CPython insertion-order semantics;
* Python `float` timestamps are embedded as rationals `ℚ` (no rounding is
  exercised by any theorem);
* the filesystem read plus tokenization in
  `DocumentStore._tokenize_from_source` is abstracted as a parameter
  `fetch : String → List String` mapping a resolved source name to its
  token list (that function reads files and renders markdown, both outside
  the embedded state; the source returns the name it was given unchanged,
  `server.py:270`).
-/

/-! ## Tokenizer (`server/tokenizer.py`)

Python strings are embedded as `List Char`.  `RE_SPLIT.split` with its one
capturing group cuts the text into maximal whitespace runs, single
punctuation characters and maximal runs of the remaining characters, and
keeps the separators; `reSplitSegs` below produces exactly the non-empty
segments of that split, in order (the source drops the empty segments on
line 40). -/

/-- Python `\s` / `str.isspace` membership (ASCII whitespace, the C1
controls 28-31, NEL, NBSP, and the Unicode space separators). -/
def isSpaceChar (c : Char) : Bool :=
  (([9, 10, 11, 12, 13, 28, 29, 30, 31, 32, 133, 160, 5760, 8232, 8233,
     8239, 8287, 12288] : List Nat).contains c.toNat) ||
  (8192 ≤ c.toNat && c.toNat ≤ 8202)

/-- `PUNCT_BREAK` (`tokenizer.py:14`); the character class of `RE_SPLIT`
(`tokenizer.py:13`) lists exactly the same characters. -/
def PUNCT_BREAK : List Char :=
  ['.', ',', ':', ';', '!', '?', '(', ')', '"', Char.ofNat 39, '-',
   '[', ']', '\x7b', '\x7d', '«', '»', '“', '”', '—', '–', '…']

def isPunctChar (c : Char) : Bool :=
  PUNCT_BREAK.contains c

/-- A character that is neither a whitespace nor a split punctuation
character, i.e. one that stays inside a non-separator segment. -/
def isWordChar (c : Char) : Bool :=
  !isSpaceChar c && !isPunctChar c

/-- The non-empty segments of `RE_SPLIT.split` (`tokenizer.py:13,40`):
leftmost-first, a whitespace run is one separator segment, a punctuation
character is a single-character separator segment, anything else extends a
non-separator segment. -/
def reSplitSegs : List Char → List (List Char)
  | [] => []
  | c :: cs =>
    if isSpaceChar c then
      (c :: cs.takeWhile isSpaceChar) :: reSplitSegs (cs.dropWhile isSpaceChar)
    else if isPunctChar c then
      [c] :: reSplitSegs cs
    else
      (c :: cs.takeWhile isWordChar) :: reSplitSegs (cs.dropWhile isWordChar)
termination_by l => l.length
decreasing_by
· have h := (List.dropWhile_sublist (p := isSpaceChar) (l := cs)).length_le
  simp only [List.length_cons]
  omega
· simp
· have h := (List.dropWhile_sublist (p := isWordChar) (l := cs)).length_le
  simp only [List.length_cons]
  omega

/-- The loop body of `tokenize` (`tokenizer.py:42-47`): a whitespace-only
segment contributes one `"\n"` token per newline it contains, every other
segment is kept verbatim. -/
def segTokens (seg : List Char) : List (List Char) :=
  if seg ≠ [] ∧ seg.all isSpaceChar then
    List.replicate (seg.count '\n') ['\n']
  else [seg]

/-- Placeholder for the entity-substitution branch of CPython
`html.unescape`, taken only when the text contains an ampersand.  The
branch belongs to the Python standard library, not to this repository, and
no theorem below reaches it: every tokenizer theorem restricts to texts
without `&`, for which `html.unescape` returns its argument unchanged (its
documented fast path). -/
def htmlEntityBranch (s : List Char) : List Char := s

/-- CPython `html.unescape`, as called by `html_to_plain`
(`tokenizer.py:25,29`): texts without an ampersand are returned unchanged. -/
def html_unescape (s : List Char) : List Char :=
  if s.contains '&' then htmlEntityBranch s else s

/-- Placeholder for the markup-stripping branch of `html_to_plain`
(`tokenizer.py:26-31`), taken only when the text contains both `<` and `>`.
No theorem below reaches it: every tokenizer theorem restricts to texts
without angle brackets, for which the source takes the early-return branch
on line 24-25. -/
def htmlMarkupBranch (s : List Char) : List Char := s

/-- `html_to_plain` (`tokenizer.py:22-31`): without both angle brackets the
text is only entity-unescaped (lines 24-25). -/
def html_to_plain (s : List Char) : List Char :=
  if !s.contains '<' || !s.contains '>' then html_unescape s
  else htmlMarkupBranch s

/-- `tokenize` (`tokenizer.py:34-48`). -/
def tokenize (s : List Char) : List (List Char) :=
  List.flatten ((reSplitSegs (html_to_plain s)).map segTokens)

/-! ### Claim C2: tokenizer round-trip

Claim-side notions (formalising the words of the spec sentence): the
whitespace-separated word sequence of a text, tokens re-joined with single
spaces, and whitespace-only tokens. -/

/-- A whitespace-only token (Python `str.isspace`): non-empty and all
whitespace.  In the tokenizer output these are exactly the `"\n"` tokens. -/
def isWsToken (t : List Char) : Bool :=
  !t.isEmpty && t.all isSpaceChar

/-- Claim-side: re-join tokens with single spaces. -/
def joinWithSpaces (ts : List (List Char)) : List Char :=
  List.intercalate [' '] ts

/-- A character that extends a whitespace-separated word. -/
def isWordsChar (c : Char) : Bool :=
  !isSpaceChar c

/-- Claim-side: the sequence of whitespace-separated words of a text. -/
def wordsOf : List Char → List (List Char)
  | [] => []
  | c :: cs =>
    if isSpaceChar c then wordsOf cs
    else (c :: cs.takeWhile isWordsChar) :: wordsOf (cs.dropWhile isWordsChar)
termination_by l => l.length
decreasing_by
· simp
· have h := (List.dropWhile_sublist (p := isWordsChar) (l := cs)).length_le
  simp only [List.length_cons]
  omega

theorem mem_punct_not_space {c : Char} (h : isPunctChar c = true) :
    isSpaceChar c = false := by
  have hm : c ∈ PUNCT_BREAK := by
    simpa [isPunctChar] using h
  fin_cases hm <;> decide

theorem word_not_space {c : Char} (h : isWordChar c = true) :
    isSpaceChar c = false := by
  rw [isWordChar, Bool.and_eq_true] at h
  simpa using h.1

theorem filter_nonWs_replicate_nl (n : Nat) :
    (List.replicate n (['\n'] : List Char)).filter (fun t => !isWsToken t)
      = [] := by
  induction n with
  | zero => simp
  | succ n ih => simp [List.replicate_succ, ih, isWsToken, isSpaceChar]

/-- The heart of the round-trip: over the segments of the regex split, the
non-whitespace tokens concatenate to the text with its whitespace removed. -/
theorem flatten_nonWs_tokens (s : List Char) :
    ((((reSplitSegs s).map segTokens).flatten.filter
        (fun t => !isWsToken t))).flatten
      = s.filter (fun c => !isSpaceChar c) := by
  induction s using reSplitSegs.induct with
  | case1 => simp [reSplitSegs]
  | case2 c cs hc ih =>
      have hseg : segTokens (c :: cs.takeWhile isSpaceChar)
          = List.replicate ((c :: cs.takeWhile isSpaceChar).count '\n') ['\n'] := by
        rw [segTokens, if_pos]
        refine ⟨by simp, ?_⟩
        simp only [List.all_cons, Bool.and_eq_true]
        exact ⟨hc, by
          rw [List.all_eq_true]
          intro a ha
          exact List.mem_takeWhile_imp ha⟩
      have htw : (cs.takeWhile isSpaceChar).filter (fun c => !isSpaceChar c) = [] := by
        rw [List.filter_eq_nil_iff]
        intro a ha
        simp [List.mem_takeWhile_imp ha]
      conv_lhs => rw [reSplitSegs]
      rw [if_pos hc]
      simp only [List.map_cons, List.flatten_cons, hseg, List.filter_append,
        filter_nonWs_replicate_nl, List.nil_append, ih]
      conv_rhs => rw [← List.takeWhile_append_dropWhile (p := isSpaceChar) (l := cs)]
      rw [List.filter_cons_of_neg (by simp [hc]), List.filter_append, htw,
        List.nil_append]
  | case3 c cs hc hp ih =>
      have hcs : isSpaceChar c = false := mem_punct_not_space hp
      have hseg : segTokens [c] = [[c]] := by
        rw [segTokens, if_neg]
        simp [hcs]
      conv_lhs => rw [reSplitSegs]
      rw [if_neg (by simp [hc]), if_pos hp, List.map_cons, List.flatten_cons,
        hseg, List.filter_append, List.flatten_append, ih]
      conv_rhs => rw [List.filter_cons_of_pos (by simp [hcs])]
      rw [List.filter_cons_of_pos (by simp [isWsToken, hcs])]
      simp
  | case4 c cs hc hp ih =>
      have hw : isWordChar c = true := by
        rw [isWordChar, Bool.and_eq_true]
        exact ⟨by simp [hc], by simp [hp]⟩
      have hcs : isSpaceChar c = false := word_not_space hw
      have hall : ∀ a ∈ cs.takeWhile isWordChar, isSpaceChar a = false :=
        fun a ha => word_not_space (List.mem_takeWhile_imp ha)
      have hseg : segTokens (c :: cs.takeWhile isWordChar)
          = [c :: cs.takeWhile isWordChar] := by
        rw [segTokens, if_neg]
        simp [hcs]
      have htw : (cs.takeWhile isWordChar).filter (fun c => !isSpaceChar c)
          = cs.takeWhile isWordChar := by
        rw [List.filter_eq_self]
        intro a ha
        simp [hall a ha]
      conv_lhs => rw [reSplitSegs]
      rw [if_neg (by simp [hc]), if_neg (by simp [hp]), List.map_cons,
        List.flatten_cons, hseg, List.filter_append, List.flatten_append, ih]
      rw [List.filter_cons_of_pos (by simp [isWsToken, hcs])]
      conv_rhs => rw [← List.takeWhile_append_dropWhile (p := isWordChar) (l := cs)]
      conv_rhs =>
        rw [List.filter_cons_of_pos (by simp [hcs]), List.filter_append, htw]
      simp

theorem html_to_plain_of_plain {s : List Char} (hlt : '<' ∉ s) (hamp : '&' ∉ s) :
    html_to_plain s = s := by
  have h1 : s.contains '<' = false := by
    simpa using hlt
  have h2 : s.contains '&' = false := by
    simpa using hamp
  rw [html_to_plain, if_pos (by simp; exact Or.inl hlt), html_unescape, h2]
  simp

/-- C2, amended: for a text with no angle brackets and no ampersand, the
non-whitespace tokens of `tokenize`, concatenated, reproduce exactly the
non-whitespace characters of the text in order — the whitespace-insensitive
round-trip holds at the character level (punctuation is split into tokens
of its own, so the round-trip does not hold at the level of
whitespace-separated words; entity unescaping makes it fail when an
ampersand is present). -/
theorem tokenize_plain_roundtrip (s : List Char)
    (hlt : '<' ∉ s) (hgt : '>' ∉ s) (hamp : '&' ∉ s) :
    ((tokenize s).filter (fun t => !isWsToken t)).flatten
      = s.filter (fun c => !isSpaceChar c) := by
  rw [tokenize, html_to_plain_of_plain hlt hamp]
  exact flatten_nonWs_tokens s

theorem tokenize_plain_roundtrip_witness :
    ('<' ∉ (['H', 'i', ' ', 'y', 'o', 'u'] : List Char) ∧
     '>' ∉ (['H', 'i', ' ', 'y', 'o', 'u'] : List Char) ∧
     '&' ∉ (['H', 'i', ' ', 'y', 'o', 'u'] : List Char)) ∧
    ((tokenize ['H', 'i', ' ', 'y', 'o', 'u']).filter
        (fun t => !isWsToken t)).flatten
      = (['H', 'i', ' ', 'y', 'o', 'u'] : List Char).filter
          (fun c => !isSpaceChar c) := by
  refine ⟨⟨by decide, by decide, by decide⟩, ?_⟩
  exact tokenize_plain_roundtrip ['H', 'i', ' ', 'y', 'o', 'u']
    (by decide) (by decide) (by decide)

/-- The text of the C2 counterexample: `a,b`, which has no HTML markers. -/
def c2Text : List Char := ['a', ',', 'b']

/-- C2, counterexample: for the marker-free text `a,b`, re-joining the
non-whitespace tokens with single spaces gives `a , b`, whose word sequence
`[a, ,, b]` differs from the word sequence `[a,b]` of the original — the
round-trip fails at the level of word sequences because the tokenizer
splits punctuation into tokens of its own. -/
theorem c2_word_sequence_counterexample :
    ('<' ∉ c2Text ∧ '>' ∉ c2Text) ∧
    wordsOf (joinWithSpaces
        ((tokenize c2Text).filter (fun t => !isWsToken t)))
      ≠ wordsOf c2Text := by
  constructor
  · exact ⟨by decide, by decide⟩
  · have h1 : tokenize c2Text = [['a'], [','], ['b']] := by
      rw [tokenize, html_to_plain_of_plain (by decide) (by decide)]
      simp [reSplitSegs, segTokens, isSpaceChar, isPunctChar, PUNCT_BREAK,
        isWordChar, c2Text]
    rw [h1]
    have h2 : joinWithSpaces
        (([['a'], [','], ['b']] : List (List Char)).filter
          (fun t => !isWsToken t))
        = ['a', ' ', ',', ' ', 'b'] := by
      simp [joinWithSpaces, isWsToken, isSpaceChar, List.intercalate]
    rw [h2]
    have h3 : wordsOf ['a', ' ', ',', ' ', 'b'] = [['a'], [','], ['b']] := by
      simp [wordsOf, isSpaceChar, isWordsChar, isPunctChar, PUNCT_BREAK]
    have h4 : wordsOf c2Text = [['a', ',', 'b']] := by
      simp [wordsOf, isSpaceChar, isWordsChar, isPunctChar, PUNCT_BREAK, c2Text]
    rw [h3, h4]
    decide

/-! ## Vote buckets and majority aggregation (`server.py:947-972`) -/

/-- One per-token vote map: client id → color, in insertion order
(embeds the `Dict[str, str]` bucket).-/
abbrev Bucket := List (String × String)

/-- `counts[color] = counts.get(color, 0) + 1` on an insertion-ordered dict:
if the color is present its count is bumped in place, otherwise the color is
appended with count 1 (embeds `server.py:952`). -/
def bumpCount (counts : List (String × Nat)) (color : String) : List (String × Nat) :=
  if (counts.lookup color).isSome then
    counts.map (fun p => if p.1 = color then (p.1, p.2 + 1) else p)
  else
    counts ++ [(color, 1)]

/-- The `counts` dict built by the loop in `top_color_at`
(`server.py:948-952`): fold over the bucket values in insertion order,
skipping empty colors. -/
def countsOfAux (acc : List (String × Nat)) : Bucket → List (String × Nat)
  | [] => acc
  | (_, color) :: rest =>
      countsOfAux (if color = "" then acc else bumpCount acc color) rest

def countsOf (bucket : Bucket) : List (String × Nat) :=
  countsOfAux [] bucket

/-- Python `max(items, key=lambda item: item[1])`: scans left to right and
replaces the current best only on a strictly greater key, so the first
maximal element wins ties. -/
def maxByCountFirst : (String × Nat) → List (String × Nat) → (String × Nat)
  | best, [] => best
  | best, x :: xs => maxByCountFirst (if x.2 > best.2 then x else best) xs

/-- `top_color_at` (`server.py:947-955`): color with the highest number of
distinct client votes in the bucket, ties broken by first occurrence;
`""` when the bucket holds no (non-empty) votes. -/
def top_color_at (bucket : Bucket) : String :=
  match countsOf bucket with
  | [] => ""
  | c :: cs => (maxByCountFirst c cs).1

/-- An aggregated highlight range; the field `stop` embeds the Python key
`end` (a Lean keyword), the range is inclusive at both sides. -/
structure HRange where
  start : Nat
  stop : Nat
  color : String
deriving DecidableEq

/-- The inner `while j + 1 < total and top_color_at(votes[j + 1]) == color`
loop of `ranges_from_votes` (`server.py:968-969`): how many buckets at the
front of `rest` still have the same top color. -/
def top_run_length (color : String) : List Bucket → Nat
  | [] => 0
  | b :: rest =>
      if top_color_at b = color then top_run_length color rest + 1 else 0

/-- The outer `while i < total` loop of `ranges_from_votes`
(`server.py:962-971`); the remaining buckets are `votes.drop i`, so the
position counter `i` is carried alongside. -/
def rangesFromVotesAux : List Bucket → Nat → List HRange
  | [], _ => []
  | b :: rest, i =>
      let color := top_color_at b
      if color = "" then rangesFromVotesAux rest (i + 1)
      else
        let k := top_run_length color rest
        { start := i, stop := i + k, color := color } ::
          rangesFromVotesAux (rest.drop k) (i + k + 1)
termination_by votes _ => votes.length
decreasing_by
· simp
· simp only [List.length_cons, List.length_drop]
  omega

/-- `ranges_from_votes` (`server.py:958-972`). -/
def ranges_from_votes (votes : List Bucket) : List HRange :=
  rangesFromVotesAux votes 0

/-! ### Counting lemmas about `top_color_at`

`countVal b c` is the number of votes for color `c` in a bucket — the value
the `counts` dict of `top_color_at` accumulates per color. -/

def countVal (b : Bucket) (c : String) : Nat :=
  ((b.map Prod.snd).filter (fun d => d == c)).length

theorem countVal_perm {b1 b2 : Bucket} (h : b1.Perm b2) (c : String) :
    countVal b1 c = countVal b2 c :=
  ((h.map Prod.snd).filter _).length_eq

theorem lookup_cons_self {v : Nat} {rest : List (String × Nat)} (k : String) :
    List.lookup k ((k, v) :: rest) = some v := by
  simp [List.lookup_cons]

theorem lookup_cons_ne {c k : String} (hc : c ≠ k) {v : Nat}
    {rest : List (String × Nat)} :
    List.lookup c ((k, v) :: rest) = List.lookup c rest := by
  simp [List.lookup_cons, beq_false_of_ne hc]

theorem lookup_isSome_iff_mem_keys (c : String) :
    ∀ l : List (String × Nat), (l.lookup c).isSome ↔ c ∈ l.map Prod.fst := by
  intro l
  induction l with
  | nil => simp
  | cons p rest ih =>
      rcases p with ⟨k, v⟩
      by_cases hc : c = k
      · subst hc
        simp [lookup_cons_self]
      · rw [lookup_cons_ne hc]
        simp [hc, ih]

theorem lookup_mem_of_eq_some {c : String} {v : Nat} :
    ∀ {l : List (String × Nat)}, l.lookup c = some v → (c, v) ∈ l := by
  intro l
  induction l with
  | nil => simp
  | cons p rest ih =>
      rcases p with ⟨k, w⟩
      by_cases hc : c = k
      · subst hc
        rw [lookup_cons_self]
        intro h
        rw [← Option.some.inj h]
        exact List.mem_cons_self _ _
      · rw [lookup_cons_ne hc]
        intro h
        exact List.mem_cons_of_mem _ (ih h)

theorem mem_lookup_of_nodup :
    ∀ {l : List (String × Nat)}, (l.map Prod.fst).Nodup →
      ∀ {p : String × Nat}, p ∈ l → l.lookup p.1 = some p.2 := by
  intro l
  induction l with
  | nil => intro _ p hp; simp at hp
  | cons q rest ih =>
      rcases q with ⟨k, w⟩
      intro hnd p hp
      simp only [List.map_cons, List.nodup_cons] at hnd
      rcases List.mem_cons.mp hp with h | h
      · rw [h]
        exact lookup_cons_self k
      · have hk : p.1 ≠ k := by
          intro he
          exact hnd.1 (he ▸ List.mem_map_of_mem Prod.fst h)
        rw [lookup_cons_ne hk]
        exact ih hnd.2 h

theorem lookup_map_bump (c : String) :
    ∀ acc : List (String × Nat), (acc.lookup c).isSome →
      (acc.map (fun p => if p.1 = c then (p.1, p.2 + 1) else p)).lookup c
        = some ((acc.lookup c).getD 0 + 1) := by
  intro acc
  induction acc with
  | nil => intro h; simp at h
  | cons p rest ih =>
      rcases p with ⟨k, v⟩
      intro h
      rw [List.map_cons]
      by_cases hkc : k = c
      · subst hkc
        have hf : (if (k, v).1 = k then ((k, v).1, (k, v).2 + 1) else (k, v))
            = (k, v + 1) := by simp
        rw [hf, lookup_cons_self, lookup_cons_self]
        rfl
      · have hf : (if (k, v).1 = c then ((k, v).1, (k, v).2 + 1) else (k, v))
            = (k, v) := by simp [hkc]
        rw [hf, lookup_cons_ne (Ne.symm hkc), lookup_cons_ne (Ne.symm hkc)]
        rw [lookup_cons_ne (Ne.symm hkc)] at h
        exact ih h

theorem lookup_map_bump_other (c d : String) (hd : d ≠ c) :
    ∀ acc : List (String × Nat),
      (acc.map (fun p => if p.1 = c then (p.1, p.2 + 1) else p)).lookup d
        = acc.lookup d := by
  intro acc
  induction acc with
  | nil => simp
  | cons p rest ih =>
      rcases p with ⟨k, v⟩
      rw [List.map_cons]
      by_cases hkc : k = c
      · have hf : (if (k, v).1 = c then ((k, v).1, (k, v).2 + 1) else (k, v))
            = (k, v + 1) := by simp [hkc]
        rw [hf]
        by_cases hdk : d = k
        · exact absurd (hdk.trans hkc) hd
        · rw [lookup_cons_ne hdk, lookup_cons_ne hdk, ih]
      · have hf : (if (k, v).1 = c then ((k, v).1, (k, v).2 + 1) else (k, v))
            = (k, v) := by simp [hkc]
        rw [hf]
        by_cases hdk : d = k
        · subst hdk
          rw [lookup_cons_self, lookup_cons_self]
        · rw [lookup_cons_ne hdk, lookup_cons_ne hdk, ih]

theorem lookup_append_right_none {d : String} {l2 : List (String × Nat)}
    (h2 : l2.lookup d = none) :
    ∀ l1 : List (String × Nat), (l1 ++ l2).lookup d = l1.lookup d := by
  intro l1
  induction l1 with
  | nil => simp [h2]
  | cons p rest ih =>
      rcases p with ⟨k, v⟩
      by_cases hdk : d = k
      · subst hdk
        rw [List.cons_append, lookup_cons_self, lookup_cons_self]
      · rw [List.cons_append, lookup_cons_ne hdk, lookup_cons_ne hdk, ih]

theorem lookup_append_of_none {d : String} {l2 : List (String × Nat)} :
    ∀ l1 : List (String × Nat), l1.lookup d = none →
      (l1 ++ l2).lookup d = l2.lookup d := by
  intro l1
  induction l1 with
  | nil => intro _; simp
  | cons p rest ih =>
      rcases p with ⟨k, v⟩
      intro h
      by_cases hdk : d = k
      · subst hdk
        rw [lookup_cons_self] at h
        exact absurd h (by simp)
      · rw [lookup_cons_ne hdk] at h
        rw [List.cons_append, lookup_cons_ne hdk]
        exact ih h

theorem bump_lookup_self (acc : List (String × Nat)) (c : String) :
    (bumpCount acc c).lookup c = some (((acc.lookup c).getD 0) + 1) := by
  rw [bumpCount]
  split_ifs with h
  · exact lookup_map_bump c acc h
  · have hn : acc.lookup c = none := by
      cases hl : acc.lookup c
      · rfl
      · rw [hl] at h
        simp at h
    rw [lookup_append_of_none acc hn, hn, lookup_cons_self]
    rfl

theorem bump_lookup_other (acc : List (String × Nat)) {c d : String}
    (hd : d ≠ c) : (bumpCount acc c).lookup d = acc.lookup d := by
  rw [bumpCount]
  split_ifs with h
  · exact lookup_map_bump_other c d hd acc
  · exact lookup_append_right_none (by rw [lookup_cons_ne hd]; rfl) acc

theorem bump_keys_nodup (acc : List (String × Nat)) (c : String)
    (hnd : (acc.map Prod.fst).Nodup) :
    ((bumpCount acc c).map Prod.fst).Nodup := by
  rw [bumpCount]
  split_ifs with h
  · have hkeys : (acc.map (fun p : String × Nat =>
        if p.1 = c then (p.1, p.2 + 1) else p)).map Prod.fst = acc.map Prod.fst := by
      rw [List.map_map]
      apply List.map_congr_left
      intro p _
      show (if p.1 = c then (p.1, p.2 + 1) else p).1 = p.1
      split_ifs <;> rfl
    rw [hkeys]
    exact hnd
  · rw [List.map_append]
    refine List.Nodup.append hnd (by simp) ?_
    intro a ha hb
    simp only [List.map_cons, List.map_nil, List.mem_singleton] at hb
    rw [hb] at ha
    rw [← lookup_isSome_iff_mem_keys] at ha
    exact h ha

theorem countVal_cons (k0 v0 : String) (rest : Bucket) (c : String) :
    countVal ((k0, v0) :: rest) c = (if v0 = c then 1 else 0) + countVal rest c := by
  simp only [countVal, List.map_cons, List.filter_cons]
  by_cases h : v0 = c <;> simp [h, Nat.add_comm]

theorem countsOfAux_getD {c : String} (hc : c ≠ "") :
    ∀ (b : Bucket) (acc : List (String × Nat)),
      ((countsOfAux acc b).lookup c).getD 0 = (acc.lookup c).getD 0 + countVal b c := by
  intro b
  induction b with
  | nil =>
      intro acc
      simp [countsOfAux, countVal]
  | cons p rest ih =>
      rcases p with ⟨k0, v0⟩
      intro acc
      rw [countsOfAux, countVal_cons]
      by_cases hv0 : v0 = ""
      · rw [if_pos hv0, if_neg (fun he => hc (he.symm.trans hv0)), ih acc]
        omega
      · rw [if_neg hv0]
        by_cases hvc : v0 = c
        · subst hvc
          rw [if_pos rfl, ih (bumpCount acc v0), bump_lookup_self]
          simp only [Option.getD_some]
          omega
        · rw [if_neg hvc, ih (bumpCount acc v0), bump_lookup_other acc (Ne.symm hvc)]
          omega

theorem countsOfAux_isSome {c : String} (hc : c ≠ "") :
    ∀ (b : Bucket) (acc : List (String × Nat)),
      ((countsOfAux acc b).lookup c).isSome ↔
        ((acc.lookup c).isSome ∨ 0 < countVal b c) := by
  intro b
  induction b with
  | nil =>
      intro acc
      simp [countsOfAux, countVal]
  | cons p rest ih =>
      rcases p with ⟨k0, v0⟩
      intro acc
      rw [countsOfAux, countVal_cons]
      by_cases hv0 : v0 = ""
      · rw [if_pos hv0, if_neg (fun he => hc (he.symm.trans hv0)), ih acc]
        simp
      · rw [if_neg hv0]
        by_cases hvc : v0 = c
        · subst hvc
          rw [if_pos rfl, ih (bumpCount acc v0)]
          rw [bump_lookup_self]
          simp
        · rw [if_neg hvc, ih (bumpCount acc v0), bump_lookup_other acc (Ne.symm hvc)]
          simp

theorem countsOfAux_lookup_empty :
    ∀ (b : Bucket) (acc : List (String × Nat)),
      (countsOfAux acc b).lookup ("") = acc.lookup ("") := by
  intro b
  induction b with
  | nil => intro acc; rfl
  | cons p rest ih =>
      rcases p with ⟨k0, v0⟩
      intro acc
      rw [countsOfAux]
      by_cases hv0 : v0 = ""
      · rw [if_pos hv0, ih acc]
      · rw [if_neg hv0, ih (bumpCount acc v0), bump_lookup_other acc (Ne.symm hv0)]

theorem countsOfAux_keys_nodup :
    ∀ (b : Bucket) (acc : List (String × Nat)), (acc.map Prod.fst).Nodup →
      ((countsOfAux acc b).map Prod.fst).Nodup := by
  intro b
  induction b with
  | nil => intro acc h; exact h
  | cons p rest ih =>
      rcases p with ⟨k0, v0⟩
      intro acc h
      rw [countsOfAux]
      by_cases hv0 : v0 = ""
      · rw [if_pos hv0]
        exact ih acc h
      · rw [if_neg hv0]
        exact ih (bumpCount acc v0) (bump_keys_nodup acc v0 h)

theorem countsOf_entry {b : Bucket} {p : String × Nat} (hp : p ∈ countsOf b) :
    p.1 ≠ ("") ∧ p.2 = countVal b p.1 ∧ 0 < countVal b p.1 := by
  have hnd : ((countsOf b).map Prod.fst).Nodup :=
    countsOfAux_keys_nodup b [] (by simp)
  have hl : (countsOf b).lookup p.1 = some p.2 := mem_lookup_of_nodup hnd hp
  have hne : p.1 ≠ ("") := by
    intro he
    rw [he, countsOf, countsOfAux_lookup_empty b []] at hl
    exact absurd hl (by simp [List.lookup])
  have hg := countsOfAux_getD hne b []
  rw [← countsOf, hl] at hg
  simp only [Option.getD_some, List.lookup_nil, Option.getD_none, Nat.zero_add] at hg
  have hs : ((countsOf b).lookup p.1).isSome := by
    rw [hl]
    rfl
  rw [countsOf, countsOfAux_isSome hne b []] at hs
  rcases hs with hs | hs
  · exact absurd hs (by simp [List.lookup])
  · exact ⟨hne, hg, hs⟩

theorem countsOf_mem_of_pos {b : Bucket} {c : String} (hc : c ≠ "")
    (hpos : 0 < countVal b c) : (c, countVal b c) ∈ countsOf b := by
  have hs : ((countsOf b).lookup c).isSome := by
    rw [countsOf, countsOfAux_isSome hc b []]
    exact Or.inr hpos
  obtain ⟨v, hv⟩ := Option.isSome_iff_exists.mp hs
  have hg := countsOfAux_getD hc b []
  rw [← countsOf, hv] at hg
  simp only [Option.getD_some, List.lookup_nil, Option.getD_none, Nat.zero_add] at hg
  rw [← hg]
  exact lookup_mem_of_eq_some hv

theorem maxByCountFirst_mem :
    ∀ (l : List (String × Nat)) (best : String × Nat),
      maxByCountFirst best l ∈ best :: l := by
  intro l
  induction l with
  | nil => intro best; simp [maxByCountFirst]
  | cons x xs ih =>
      intro best
      rw [maxByCountFirst]
      rcases List.mem_cons.mp (ih (if x.2 > best.2 then x else best)) with h1 | h1
      · rw [h1]
        split_ifs <;> simp
      · simp [List.mem_cons_of_mem, h1]

theorem maxByCountFirst_ge :
    ∀ (l : List (String × Nat)) (best x : String × Nat),
      x ∈ best :: l → x.2 ≤ (maxByCountFirst best l).2 := by
  intro l
  induction l with
  | nil =>
      intro best x hx
      rcases List.mem_cons.mp hx with h | h
      · rw [h, maxByCountFirst]
      · simp at h
  | cons y ys ih =>
      intro best x hx
      rw [maxByCountFirst]
      have hnext := ih (if y.2 > best.2 then y else best) _
        (List.mem_cons_self _ _)
      rcases List.mem_cons.mp hx with h1 | h1
      · have h2 : best.2 ≤ (if y.2 > best.2 then y else best).2 := by
          split_ifs with hgt <;> omega
        rw [h1]
        exact Nat.le_trans h2 hnext
      · rcases List.mem_cons.mp h1 with h2 | h2
        · have h3 : y.2 ≤ (if y.2 > best.2 then y else best).2 := by
            split_ifs with hgt <;> omega
          rw [h2]
          exact Nat.le_trans h3 hnext
        · exact ih _ x (List.mem_cons_of_mem _ h2)

/-- A color that strictly dominates every other color at a position; the
tie-break of `top_color_at` is irrelevant exactly in this situation. -/
def IsStrictTop (b : Bucket) (c : String) : Prop :=
  c ≠ "" ∧ 0 < countVal b c ∧
    ∀ d, d ≠ "" → d ≠ c → countVal b d < countVal b c

theorem IsStrictTop_perm {b1 b2 : Bucket} (hp : b1.Perm b2) {c : String}
    (h : IsStrictTop b1 c) : IsStrictTop b2 c := by
  obtain ⟨h1, h2, h3⟩ := h
  refine ⟨h1, countVal_perm hp c ▸ h2, ?_⟩
  intro d hd hdc
  rw [← countVal_perm hp d, ← countVal_perm hp c]
  exact h3 d hd hdc

theorem top_color_at_of_strict {b : Bucket} {c : String}
    (h : IsStrictTop b c) : top_color_at b = c := by
  obtain ⟨hc, hpos, hmax⟩ := h
  have hmem : (c, countVal b c) ∈ countsOf b := countsOf_mem_of_pos hc hpos
  rw [top_color_at]
  rcases hcb : countsOf b with _ | ⟨e, es⟩
  · rw [hcb] at hmem
    simp at hmem
  · have hmm : maxByCountFirst e es ∈ countsOf b := by
      rw [hcb]
      exact maxByCountFirst_mem es e
    obtain ⟨hm1, hm2, _⟩ := countsOf_entry hmm
    have hge : countVal b c ≤ (maxByCountFirst e es).2 := by
      have := maxByCountFirst_ge es e (c, countVal b c) (by rw [← hcb]; exact hmem)
      exact this
    by_cases heq : (maxByCountFirst e es).1 = c
    · exact heq
    · exfalso
      have hlt := hmax (maxByCountFirst e es).1 hm1 heq
      rw [hm2] at hge
      omega

theorem top_color_at_of_empty {b : Bucket}
    (h : ∀ c, c ≠ "" → countVal b c = 0) : top_color_at b = ("") := by
  rw [top_color_at]
  rcases hcb : countsOf b with _ | ⟨e, es⟩
  · rfl
  · exfalso
    have he := countsOf_entry (p := e) (by rw [hcb]; exact List.mem_cons_self e es)
    obtain ⟨h1, _, h3⟩ := he
    rw [h e.1 h1] at h3
    exact Nat.lt_irrefl 0 h3

/-! ### The scan seen through the per-position top colors

`ranges_from_votes` only inspects the buckets through `top_color_at`;
`rangesFromTops` is the same scan over the list of top colors, which the
well-formedness and permutation theorems factor through. -/

def runLengthStr (c : String) : List String → Nat
  | [] => 0
  | d :: rest => if d = c then runLengthStr c rest + 1 else 0

def rangesFromTops : List String → Nat → List HRange
  | [], _ => []
  | c :: rest, i =>
      if c = "" then rangesFromTops rest (i + 1)
      else
        { start := i, stop := i + runLengthStr c rest, color := c } ::
          rangesFromTops (rest.drop (runLengthStr c rest))
            (i + runLengthStr c rest + 1)
termination_by l _ => l.length
decreasing_by
· simp
· simp only [List.length_cons, List.length_drop]
  omega

theorem top_run_length_eq_tops (color : String) :
    ∀ l : List Bucket,
      top_run_length color l = runLengthStr color (l.map top_color_at) := by
  intro l
  induction l with
  | nil => rfl
  | cons b rest ih =>
      rw [List.map_cons, top_run_length, runLengthStr, ih]

theorem rangesFromVotesAux_eq_tops_aux :
    ∀ (n : Nat) (v : List Bucket), v.length ≤ n → ∀ i : Nat,
      rangesFromVotesAux v i = rangesFromTops (v.map top_color_at) i := by
  intro n
  induction n with
  | zero =>
      intro v hv i
      rw [List.length_eq_zero.mp (Nat.le_zero.mp hv)]
      rw [rangesFromVotesAux, List.map_nil, rangesFromTops]
  | succ n ih =>
      intro v hv i
      cases v with
      | nil => rw [rangesFromVotesAux, List.map_nil, rangesFromTops]
      | cons b rest =>
          have hrest : rest.length ≤ n := by
            simp only [List.length_cons] at hv
            omega
          by_cases hc : top_color_at b = ""
          · simp only [rangesFromVotesAux, rangesFromTops, List.map_cons]
            rw [if_pos hc, if_pos hc]
            exact ih rest hrest (i + 1)
          · simp only [rangesFromVotesAux, rangesFromTops, List.map_cons]
            rw [if_neg hc, if_neg hc, top_run_length_eq_tops, ← List.map_drop]
            congr 1
            exact ih (rest.drop (runLengthStr (top_color_at b)
                (rest.map top_color_at)))
              (le_trans (by rw [List.length_drop]; omega) hrest) _

theorem ranges_from_votes_eq_tops (v : List Bucket) :
    ranges_from_votes v = rangesFromTops (v.map top_color_at) 0 := by
  rw [ranges_from_votes,
    rangesFromVotesAux_eq_tops_aux v.length v (Nat.le_refl _) 0]

/-! ### Claim C3: client-permutation invariance -/

/-- A position where the aggregation result cannot depend on iteration
order: either no non-empty votes at all, or one strictly dominating color. -/
def BucketTieFree (b : Bucket) : Prop :=
  (∀ c, c ≠ "" → countVal b c = 0) ∨ ∃ c, IsStrictTop b c

theorem top_color_at_perm_of_tieFree {b1 b2 : Bucket} (hp : b1.Perm b2)
    (ht : BucketTieFree b1) : top_color_at b1 = top_color_at b2 := by
  rcases ht with he | ⟨c, hc⟩
  · rw [top_color_at_of_empty he,
      top_color_at_of_empty (fun c h => countVal_perm hp c ▸ he c h)]
  · rw [top_color_at_of_strict hc, top_color_at_of_strict (IsStrictTop_perm hp hc)]

/-- C3, counterexample: the two one-position vote lists hold the same
clients with the same colors (the buckets are permutations of each other),
yet the aggregated ranges differ — with a one-one tie at the position, the
first-seen color wins, so insertion order is observable. -/
theorem c3_order_dependence_counterexample :
    ([(("A"), ("red")), (("B"), ("green"))] : Bucket).Perm
        [(("B"), ("green")), (("A"), ("red"))] ∧
    ranges_from_votes [[(("A"), ("red")), (("B"), ("green"))]] ≠
      ranges_from_votes [[(("B"), ("green")), (("A"), ("red"))]] := by
  constructor
  · decide
  · simp [ranges_from_votes, rangesFromVotesAux, top_run_length, top_color_at,
      countsOf, countsOfAux, bumpCount, maxByCountFirst, List.lookup]

/-- C3, amended: permuting the per-position vote maps (same clients, same
colors, any insertion order) yields identical ranges at every vote list in
which no position has a tie at the top: each voted position must have one
color with strictly more distinct votes than every other.  (The
counterexample shows the restriction is necessary: on a tie the first-seen
color wins, so insertion order leaks into the result.) -/
theorem ranges_from_votes_perm_invariant (v1 v2 : List Bucket)
    (hp : List.Forall₂ (fun b1 b2 => b1.Perm b2) v1 v2)
    (ht : ∀ b ∈ v1, BucketTieFree b) :
    ranges_from_votes v1 = ranges_from_votes v2 := by
  rw [ranges_from_votes_eq_tops, ranges_from_votes_eq_tops]
  have hmap : ∀ (u1 u2 : List Bucket),
      List.Forall₂ (fun b1 b2 => b1.Perm b2) u1 u2 →
      (∀ b ∈ u1, BucketTieFree b) →
      u1.map top_color_at = u2.map top_color_at := by
    intro u1 u2 h
    induction h with
    | nil => intro _; rfl
    | cons hh htail ih =>
        intro ht2
        simp only [List.map_cons]
        rw [top_color_at_perm_of_tieFree hh (ht2 _ (List.mem_cons_self _ _)),
          ih (fun b hb => ht2 b (List.mem_cons_of_mem _ hb))]
  rw [hmap v1 v2 hp ht]

theorem ranges_from_votes_perm_invariant_witness :
    List.Forall₂ (fun b1 b2 => b1.Perm b2)
        ([[(("A"), ("red")), (("B"), ("green")), (("C"), ("red"))]] : List Bucket)
        [[(("B"), ("green")), (("C"), ("red")), (("A"), ("red"))]] ∧
    ranges_from_votes
        [[(("A"), ("red")), (("B"), ("green")), (("C"), ("red"))]] =
      ranges_from_votes
        [[(("B"), ("green")), (("C"), ("red")), (("A"), ("red"))]] := by
  have hf : List.Forall₂ (fun b1 b2 : Bucket => b1.Perm b2)
      [[(("A"), ("red")), (("B"), ("green")), (("C"), ("red"))]]
      [[(("B"), ("green")), (("C"), ("red")), (("A"), ("red"))]] :=
    List.Forall₂.cons (by decide) List.Forall₂.nil
  refine ⟨hf, ranges_from_votes_perm_invariant _ _ hf ?_⟩
  intro b hb
  rw [List.mem_singleton] at hb
  subst hb
  right
  refine ⟨("red"), by decide, by decide, ?_⟩
  intro d hd hdc
  by_cases hg : d = ("green")
  · subst hg
    decide
  · have h0 : countVal
        [(("A"), ("red")), (("B"), ("green")), (("C"), ("red"))] d = 0 := by
      simp [countVal, List.filter, beq_false_of_ne (Ne.symm hdc),
        beq_false_of_ne (Ne.symm hg)]
    rw [h0]
    decide

/-! ### Claim C10: well-formedness of the aggregated ranges -/

theorem runLengthStr_le (c : String) :
    ∀ l : List String, runLengthStr c l ≤ l.length := by
  intro l
  induction l with
  | nil => simp [runLengthStr]
  | cons d rest ih =>
      rw [runLengthStr]
      split_ifs <;> simp <;> omega

theorem runLengthStr_getD (c : String) :
    ∀ (l : List String) (m : Nat), m < runLengthStr c l → l.getD m ("") = c := by
  intro l
  induction l with
  | nil => intro m hm; simp [runLengthStr] at hm
  | cons d rest ih =>
      intro m hm
      rw [runLengthStr] at hm
      split_ifs at hm with hd
      · cases m with
        | zero => simpa using hd
        | succ m2 =>
            rw [List.getD_cons_succ]
            exact ih m2 (by omega)
      · omega

theorem getD_drop_add {α : Type} (d : α) :
    ∀ (l : List α) (k m : Nat), (l.drop k).getD m d = l.getD (k + m) d := by
  intro l
  induction l with
  | nil => intro k m; simp
  | cons x xs ih =>
      intro k m
      cases k with
      | zero => simp
      | succ k2 =>
          rw [List.drop_succ_cons, ih k2 m]
          have : k2 + 1 + m = (k2 + m) + 1 := by omega
          rw [this, List.getD_cons_succ]

theorem rangesFromTops_spec :
    ∀ (tops : List String) (i : Nat),
      (∀ r ∈ rangesFromTops tops i,
          i ≤ r.start ∧ r.start ≤ r.stop ∧ r.stop < i + tops.length ∧
          ∀ p, r.start ≤ p → p ≤ r.stop → tops.getD (p - i) ("") = r.color) ∧
      List.Pairwise (fun a b => a.stop < b.start) (rangesFromTops tops i) := by
  intro tops i
  induction tops, i using rangesFromTops.induct with
  | case1 i =>
      rw [rangesFromTops]
      constructor
      · intro r hr
        simp at hr
      · exact List.Pairwise.nil
  | case2 rest i ih =>
      obtain ⟨ih1, ih2⟩ := ih
      rw [rangesFromTops, if_pos rfl]
      refine ⟨?_, ih2⟩
      intro r hr
      obtain ⟨ha, hb, hcc, hd⟩ := ih1 r hr
      refine ⟨by omega, hb, by simp only [List.length_cons]; omega, ?_⟩
      intro p hp1 hp2
      have hip : i + 1 ≤ p := Nat.le_trans ha hp1
      have he : p - i = (p - (i + 1)) + 1 := by omega
      rw [he, List.getD_cons_succ]
      exact hd p hp1 hp2
  | case3 c rest i hc ih =>
      obtain ⟨ih1, ih2⟩ := ih
      have hk := runLengthStr_le c rest
      rw [rangesFromTops, if_neg hc]
      constructor
      · intro r hr
        rcases List.mem_cons.mp hr with h | h
        · rw [h]
          refine ⟨Nat.le_refl i, by simp, ?_, ?_⟩
          · simp only [List.length_cons]
            omega
          · intro p hp1 hp2
            simp only at hp1 hp2 ⊢
            rcases Nat.eq_or_lt_of_le hp1 with hpe | hpl
            · rw [← hpe]
              simp
            · have he : p - i = (p - i - 1) + 1 := by omega
              rw [he, List.getD_cons_succ]
              exact runLengthStr_getD c rest (p - i - 1) (by omega)
        · obtain ⟨ha, hb, hcc, hd⟩ := ih1 r h
          rw [List.length_drop] at hcc
          refine ⟨by omega, hb, by simp only [List.length_cons]; omega, ?_⟩
          intro p hp1 hp2
          have hip : i + runLengthStr c rest + 1 ≤ p := Nat.le_trans ha hp1
          have he : p - i = (runLengthStr c rest + (p - (i + runLengthStr c rest + 1))) + 1 := by
            omega
          rw [he, List.getD_cons_succ, ← getD_drop_add]
          exact hd p hp1 hp2
      · refine List.Pairwise.cons ?_ ih2
        intro r hr
        have := (ih1 r hr).1
        simp only
        omega

theorem getD_map_top (votes : List Bucket) :
    ∀ p : Nat, p < votes.length →
      (votes.map top_color_at).getD p ("") = top_color_at (votes.getD p []) := by
  induction votes with
  | nil => intro p hp; simp at hp
  | cons b rest ih =>
      intro p hp
      cases p with
      | zero => simp
      | succ m =>
          rw [List.map_cons, List.getD_cons_succ, List.getD_cons_succ]
          exact ih m (by simpa using hp)

/-- C10: the aggregated ranges are well-formed and ordered — every range
satisfies `start ≤ end < len(votes)`, the ranges are pairwise disjoint in
strictly increasing position order (each range ends before the next one
starts), and inside a range every position has that range color as its top
color. -/
theorem ranges_from_votes_wellformed (votes : List Bucket) :
    (∀ r ∈ ranges_from_votes votes,
        r.start ≤ r.stop ∧ r.stop < votes.length ∧
        ∀ p, r.start ≤ p → p ≤ r.stop →
          top_color_at (votes.getD p []) = r.color) ∧
    List.Pairwise (fun a b => a.stop < b.start) (ranges_from_votes votes) := by
  rw [ranges_from_votes_eq_tops]
  obtain ⟨h1, h2⟩ := rangesFromTops_spec (votes.map top_color_at) 0
  refine ⟨?_, h2⟩
  intro r hr
  obtain ⟨_, hb, hcc, hd⟩ := h1 r hr
  rw [List.length_map] at hcc
  refine ⟨hb, by omega, ?_⟩
  intro p hp1 hp2
  have hp : p < votes.length := by omega
  have hgd := hd p hp1 hp2
  rw [Nat.sub_zero] at hgd
  rw [← hgd, getD_map_top votes p hp]

theorem ranges_from_votes_wellformed_witness :
    top_color_at (([[(("A"), ("red"))]] : List Bucket).getD 0 []) =
      HRange.color { start := 0, stop := 0, color := ("red") } := by
  have hev : ranges_from_votes [[(("A"), ("red"))]] =
      [{ start := 0, stop := 0, color := ("red") }] := by
    simp [ranges_from_votes, rangesFromVotesAux, top_run_length, top_color_at,
      countsOf, countsOfAux, bumpCount, maxByCountFirst, List.lookup]
  have h := (ranges_from_votes_wellformed [[(("A"), ("red"))]]).1
    { start := 0, stop := 0, color := ("red") }
    (by rw [hev]; exact List.mem_singleton_self _)
  exact h.2.2 0 (Nat.le_refl 0) (Nat.le_refl 0)

/-! ## Document Store (`server.py:65-309`)

State is per document, so the embedding models a single document id:
`mem` is `self._states.get(doc_id)` (`none` = not cached), `disk` the
persisted snapshot file (`none` = missing or unparsable, both of which
`_load_state_from_disk` degrades to an empty document), `locked` the
entry of `self._lock_flags`.  The per-document asyncio mutex serializes
the operations; the embedding presents each operation as one atomic
state transformer, which is exactly what the mutex guarantees. -/

def DEFAULT_SOURCE_NAME : String := "text.txt"

/-- `DocState` dataclass (`server.py:65-70`). -/
structure DocState where
  tokens : List String
  votes : List Bucket
  updated : Option ℚ
  source_name : String
deriving DecidableEq

def defaultDocState : DocState :=
  { tokens := [], votes := [], updated := none,
    source_name := DEFAULT_SOURCE_NAME }

structure DocStore where
  mem : Option DocState
  disk : Option DocState
  locked : Bool
deriving DecidableEq

/-- `Path(name).name`: the final path component.  Embedded as the last
nonempty `/`-separated component (the special components `.` and `..`
are not special-cased; no theorem exercises them). -/
def pathBasename (n : String) : String :=
  (((n.splitOn ("/")).filter (fun p => p ≠ "")).getLast?).getD ""

/-- `DocumentStore._sanitize_source_name` (`server.py:289-292`). -/
def sanitize_source_name (name : Option String) : String :=
  match name with
  | none => DEFAULT_SOURCE_NAME
  | some n => if n = "" then DEFAULT_SOURCE_NAME else pathBasename n

/-- `DocumentStore._ensure_votes_length` (`server.py:294-300`): pad the
vote list with empty maps or truncate it to the token count. -/
def ensureVotesLength (s : DocState) : DocState :=
  let target := s.tokens.length
  if s.votes.length < target then
    { s with votes := s.votes ++ List.replicate (target - s.votes.length) [] }
  else if s.votes.length > target then
    { s with votes := s.votes.take target }
  else s

/-- `DocumentStore._load_state_from_disk` (`server.py:100-117`): missing or
corrupt snapshots (both folded into `disk = none`) degrade to the empty
document; an empty stored source name falls back to the default, any other
is sanitized; the vote length is reconciled immediately. -/
def load_state_from_disk (disk : Option DocState) : DocState :=
  match disk with
  | none => defaultDocState
  | some raw =>
      ensureVotesLength
        { tokens := raw.tokens, votes := raw.votes, updated := raw.updated,
          source_name :=
            if raw.source_name ≠ "" then sanitize_source_name (some raw.source_name)
            else DEFAULT_SOURCE_NAME }

/-- `DocumentStore.get_state` (`server.py:93-98`). -/
def get_state (st : DocStore) : DocState × DocStore :=
  match st.mem with
  | some s => (s, st)
  | none =>
      let s := load_state_from_disk st.disk
      (s, { st with mem := some s })

/-- `DocumentStore.save_state` (`server.py:119-139`): reconcile the vote
length, atomically replace the snapshot file, then publish the state to the
in-memory cache. -/
def save_state (st : DocStore) (s : DocState) : DocStore :=
  let s := ensureVotesLength s
  { st with disk := some s, mem := some s }

/-- `DocumentStore._resolve_source_name` (`server.py:272-277`): explicit
non-empty override first, then the non-empty stored name, then the default. -/
def resolve_source_name (s : DocState) (override : Option String) : String :=
  match override with
  | some o =>
      if o ≠ "" then sanitize_source_name (some o)
      else if s.source_name ≠ "" then sanitize_source_name (some s.source_name)
      else DEFAULT_SOURCE_NAME
  | none =>
      if s.source_name ≠ "" then sanitize_source_name (some s.source_name)
      else DEFAULT_SOURCE_NAME

/-- Python `x or now` on an optional float: `None` and `0.0` are falsy. -/
def pyOrTime : Option ℚ → ℚ → ℚ
  | none, now => now
  | some x, now => if x = 0 then now else x

/-- `DocumentStore._ensure_tokens_locked` (`server.py:145-156`), with the
filesystem read plus tokenization abstracted as `fetch`. -/
def ensure_tokens_locked (fetch : String → List String) (override : Option String)
    (now : ℚ) (st : DocStore) : DocState × DocStore :=
  let p := get_state st
  let s := p.1
  if s.tokens ≠ [] then (s, p.2)
  else
    let resolved := resolve_source_name s override
    let s2 := ensureVotesLength
      { s with tokens := fetch resolved, source_name := resolved,
               updated := some (pyOrTime s.updated now) }
    (s2, save_state p.2 s2)

/-- `DocumentStore.ensure_tokens` (`server.py:141-143`). -/
def ensure_tokens (fetch : String → List String) (override : Option String)
    (now : ℚ) (st : DocStore) : DocState × DocStore :=
  ensure_tokens_locked fetch override now st

/-- `DocumentStore.retokenize` (`server.py:158-168`): note the source
resolves the name as `sanitize(source_name) if source_name else DEFAULT`,
without consulting the stored `state.source_name`. -/
def retokenize (fetch : String → List String) (override : Option String)
    (now : ℚ) (st : DocStore) : DocState × DocStore :=
  let resolved :=
    match override with
    | some n => if n ≠ "" then sanitize_source_name (some n) else DEFAULT_SOURCE_NAME
    | none => DEFAULT_SOURCE_NAME
  let tokens := fetch resolved
  let p := get_state st
  let s := { p.1 with tokens := tokens,
                      votes := List.replicate tokens.length [],
                      updated := some now, source_name := resolved }
  (s, save_state p.2 s)

/-- `DocumentStore.clear_votes` (`server.py:170-176`). -/
def clear_votes (fetch : String → List String) (now : ℚ) (st : DocStore) :
    DocState × DocStore :=
  let p := ensure_tokens_locked fetch none now st
  let s := { p.1 with votes := List.replicate p.1.tokens.length [],
                      updated := some now }
  (s, save_state p.2 s)

/-- `max(0, min(x, n - 1))` on Python ints (`server.py:194-195`). -/
def clampIdx (x : Int) (n : Nat) : Nat :=
  (max 0 (min x ((n : Int) - 1))).toNat

/-- The per-index body of the `apply_highlight` loop (`server.py:201-208`):
set or overwrite this client entry when the color is non-empty and differs,
pop the entry when the color is empty; the Bool reports `changed`. -/
def applyVote (bucket : Bucket) (client color : String) : Bucket × Bool :=
  if color ≠ "" then
    if bucket.lookup client ≠ some color then
      (if (bucket.lookup client).isSome then
         bucket.map (fun p => if p.1 = client then (p.1, color) else p)
       else bucket ++ [(client, color)], true)
    else (bucket, false)
  else
    if (bucket.lookup client).isSome then
      (bucket.eraseP (fun p => p.1 == client), true)
    else (bucket, false)

/-- `for idx in range(start, end + 1)` over the vote list
(`server.py:200-208`), walking the buckets with their index. -/
def applyLoop (client color : String) (lo hi : Nat) :
    List Bucket → Nat → List Bucket × Bool
  | [], _ => ([], false)
  | b :: rest, idx =>
      let p1 := if lo ≤ idx ∧ idx ≤ hi then applyVote b client color else (b, false)
      let p2 := applyLoop client color lo hi rest (idx + 1)
      (p1.1 :: p2.1, p1.2 || p2.2)

/-- `DocumentStore.apply_highlight` (`server.py:178-212`).  The lock flag
is the first check, before the mutex and before any state access; in-place
mutations of the cached state object are modelled by updating `mem`. -/
def apply_highlight (fetch : String → List String) (client : String)
    (start stop : Int) (color : String) (t : Option ℚ) (now : ℚ)
    (st : DocStore) : Bool × DocStore :=
  if st.locked then (false, st)
  else
    let p := ensure_tokens_locked fetch none now st
    if p.1.tokens = [] then (false, p.2)
    else
      let n := p.1.tokens.length
      let start2 := clampIdx start n
      let stop2 := clampIdx stop n
      let bounds := if start2 > stop2 then (stop2, start2) else (start2, stop2)
      let s := ensureVotesLength p.1
      let q := applyLoop client color bounds.1 bounds.2 s.votes 0
      let s2 := { s with votes := q.1 }
      if q.2 then
        (true, save_state p.2 { s2 with updated := some (pyOrTime t now) })
      else (false, { p.2 with mem := some s2 })

/-- The per-bucket body of the `clear_client` loop (`server.py:220-222`). -/
def clearLoop (client : String) : List Bucket → List Bucket × Bool
  | [] => ([], false)
  | b :: rest =>
      let p1 :=
        if (b.lookup client).isSome then (b.eraseP (fun p => p.1 == client), true)
        else (b, false)
      let p2 := clearLoop client rest
      (p1.1 :: p2.1, p1.2 || p2.2)

/-- `DocumentStore.clear_client` (`server.py:214-226`). -/
def clear_client (fetch : String → List String) (client : String)
    (t : Option ℚ) (now : ℚ) (st : DocStore) : Bool × DocStore :=
  if st.locked then (false, st)
  else
    let p := ensure_tokens_locked fetch none now st
    let q := clearLoop client p.1.votes
    let s2 := { p.1 with votes := q.1 }
    if q.2 then
      (true, save_state p.2 { s2 with updated := some (pyOrTime t now) })
    else (false, { p.2 with mem := some s2 })

/-- `DocumentStore.set_locked` (`server.py:228-229`). -/
def set_locked (value : Bool) (st : DocStore) : DocStore :=
  { st with locked := value }

/-- `DocumentStore.is_locked` (`server.py:231-232`). -/
def is_locked (st : DocStore) : Bool :=
  st.locked

/-! ## Claim C1: the concrete two-client scenario -/

/-- The document of the C1 scenario: tokens `The quick fox`, no votes yet. -/
def c1Doc : DocState :=
  { tokens := [("The"), ("quick"), ("fox")], votes := [[], [], []],
    updated := none, source_name := DEFAULT_SOURCE_NAME }

/-- The store after client `A` highlights `[0,1]` red and then client `B`
highlights `[1,1]` green. -/
def c1Store : DocStore :=
  (apply_highlight (fun _ => []) ("B") 1 1 ("green") none 2
    (apply_highlight (fun _ => []) ("A") 0 1 ("red") none 1
      { mem := some c1Doc, disk := none, locked := false }).2).2

/-- The vote list reached in the C1 scenario. -/
def c1Votes : List Bucket :=
  (c1Store.mem.getD defaultDocState).votes

theorem c1Votes_eq :
    c1Votes =
      [[(("A"), ("red"))], [(("A"), ("red")), (("B"), ("green"))], []] := by
  decide

/-- C1, counterexample: after A applies red over `[0,1]` and B applies green
over `[1,1]`, the aggregated ranges are NOT the two ranges
`[{0,0,red},{1,1,red}]` that the claim states. -/
theorem c1_scenario_counterexample :
    ranges_from_votes c1Votes ≠
      [{ start := 0, stop := 0, color := "red" },
       { start := 1, stop := 1, color := "red" }] := by
  rw [c1Votes_eq]
  simp [ranges_from_votes, rangesFromVotesAux, top_run_length, top_color_at,
    countsOf, countsOfAux, bumpCount, maxByCountFirst, List.lookup]

/-- C1, amended: the tie at index 1 does resolve to the earliest-first-seen
color (red, the A vote), but consecutive positions with the same top color
merge, so the aggregate is the single range `{start:0,end:1,color:red}`. -/
theorem c1_scenario_merged_range :
    top_color_at (c1Votes.getD 1 []) = ("red") ∧
    ranges_from_votes c1Votes = [{ start := 0, stop := 1, color := "red" }] := by
  rw [c1Votes_eq]
  constructor
  · simp [top_color_at, countsOf, countsOfAux, bumpCount, maxByCountFirst,
      List.lookup]
  · simp [ranges_from_votes, rangesFromVotesAux, top_run_length, top_color_at,
      countsOf, countsOfAux, bumpCount, maxByCountFirst, List.lookup]

/-! ## Claim C5: the votes/tokens length invariant -/

/-- The invariant of the claim: one vote map per token. -/
def votesAligned (s : DocState) : Prop :=
  s.votes.length = s.tokens.length

/-- The invariant on a store: whatever document state is cached satisfies
`len(votes) == len(tokens)`. -/
def docInv (st : DocStore) : Prop :=
  ∀ s, st.mem = some s → votesAligned s

theorem votesAligned_ensureVotesLength (s : DocState) :
    votesAligned (ensureVotesLength s) := by
  rw [ensureVotesLength]
  split_ifs with h1 h2 <;>
    simp [votesAligned] <;> omega

theorem votesAligned_load (d : Option DocState) :
    votesAligned (load_state_from_disk d) := by
  rcases d with _ | raw
  · simp [load_state_from_disk, defaultDocState, votesAligned]
  · exact votesAligned_ensureVotesLength _

theorem docInv_save (st : DocStore) (s : DocState) :
    docInv (save_state st s) := by
  intro s2 hs2
  simp only [save_state, Option.some.injEq] at hs2
  rw [← hs2]
  exact votesAligned_ensureVotesLength s

theorem get_state_inv (st : DocStore) (h : docInv st) :
    votesAligned (get_state st).1 ∧ docInv (get_state st).2 := by
  rcases hm : st.mem with _ | s
  · simp only [get_state, hm]
    refine ⟨votesAligned_load _, ?_⟩
    intro s2 hs2
    rw [← Option.some.inj hs2]
    exact votesAligned_load _
  · simp only [get_state, hm]
    exact ⟨h s hm, h⟩

theorem ensure_tokens_locked_inv (fetch : String → List String)
    (override : Option String) (now : ℚ) (st : DocStore) (h : docInv st) :
    votesAligned (ensure_tokens_locked fetch override now st).1 ∧
    docInv (ensure_tokens_locked fetch override now st).2 := by
  rw [ensure_tokens_locked]
  rcases get_state_inv st h with ⟨h1, h2⟩
  split_ifs with ht
  · exact ⟨h1, h2⟩
  · exact ⟨votesAligned_ensureVotesLength _, docInv_save _ _⟩

theorem applyLoop_length (client color : String) (lo hi : Nat) :
    ∀ (l : List Bucket) (idx : Nat),
      ((applyLoop client color lo hi l idx).1).length = l.length := by
  intro l
  induction l with
  | nil => intro idx; simp [applyLoop]
  | cons b rest ih => intro idx; simp [applyLoop, ih]

theorem clearLoop_length (client : String) :
    ∀ l : List Bucket, ((clearLoop client l).1).length = l.length := by
  intro l
  induction l with
  | nil => simp [clearLoop]
  | cons b rest ih => simp [clearLoop, ih]

/-- The Document Store operations of the claim, as one step type; each
constructor carries the call arguments (`fetch` abstracts the source file
read, `now` the wall clock). -/
inductive DocOp where
  | getState : DocOp
  | ensureTokens (fetch : String → List String) (override : Option String)
      (now : ℚ) : DocOp
  | retokenizeDoc (fetch : String → List String) (override : Option String)
      (now : ℚ) : DocOp
  | clearVotes (fetch : String → List String) (now : ℚ) : DocOp
  | applyHighlight (fetch : String → List String) (client : String)
      (start stop : Int) (color : String) (t : Option ℚ) (now : ℚ) : DocOp
  | clearClient (fetch : String → List String) (client : String)
      (t : Option ℚ) (now : ℚ) : DocOp
  | saveState (s : DocState) : DocOp
  | setLocked (b : Bool) : DocOp

def DocOp.step : DocOp → DocStore → DocStore
  | .getState, st => (get_state st).2
  | .ensureTokens f o n, st => (ensure_tokens f o n st).2
  | .retokenizeDoc f o n, st => (retokenize f o n st).2
  | .clearVotes f n, st => (clear_votes f n st).2
  | .applyHighlight f c a b col t n, st => (apply_highlight f c a b col t n st).2
  | .clearClient f c t n, st => (clear_client f c t n st).2
  | .saveState s, st => save_state st s
  | .setLocked b, st => set_locked b st

theorem docInv_step (op : DocOp) (st : DocStore) (h : docInv st) :
    docInv (op.step st) := by
  cases op with
  | getState => exact (get_state_inv st h).2
  | ensureTokens f o n =>
      exact (ensure_tokens_locked_inv f o n st h).2
  | retokenizeDoc f o n =>
      simp only [DocOp.step, retokenize]
      exact docInv_save _ _
  | clearVotes f n =>
      simp only [DocOp.step, clear_votes]
      exact docInv_save _ _
  | applyHighlight f c a b col t n =>
      simp only [DocOp.step, apply_highlight]
      rcases ensure_tokens_locked_inv f none n st h with ⟨h1, h2⟩
      split_ifs <;>
        first
          | exact h
          | exact h2
          | exact docInv_save _ _
          | (intro s2 hs2
             rw [← Option.some.inj hs2]
             show (applyLoop _ _ _ _
                 (ensureVotesLength (ensure_tokens_locked f none n st).1).votes
                 0).1.length =
               (ensureVotesLength (ensure_tokens_locked f none n st).1).tokens.length
             rw [applyLoop_length]
             exact votesAligned_ensureVotesLength _)
  | clearClient f c t n =>
      simp only [DocOp.step, clear_client]
      rcases ensure_tokens_locked_inv f none n st h with ⟨h1, h2⟩
      split_ifs <;>
        first
          | exact h
          | exact docInv_save _ _
          | (intro s2 hs2
             rw [← Option.some.inj hs2]
             show (clearLoop _ (ensure_tokens_locked f none n st).1.votes).1.length =
               (ensure_tokens_locked f none n st).1.tokens.length
             rw [clearLoop_length]
             exact h1)
  | saveState s => exact docInv_save _ _
  | setLocked b =>
      intro s2 hs2
      exact h s2 hs2

/-- C5: `len(votes) == len(tokens)` holds on the cached document state
after every sequence of Document Store operations, however interleaved,
from any store satisfying it (in particular from the initial empty store);
the reconciliation pads with empty maps or truncates
(`server.py:294-300`), and load and save both apply it. -/
theorem votes_tokens_invariant (ops : List DocOp) (st : DocStore)
    (h : docInv st) :
    docInv (ops.foldl (fun acc op => op.step acc) st) := by
  induction ops generalizing st with
  | nil => exact h
  | cons op rest ih =>
      exact ih (op.step st) (docInv_step op st h)

theorem votes_tokens_invariant_witness :
    docInv { mem := none, disk := none, locked := false } ∧
    docInv ([DocOp.getState,
             DocOp.saveState { tokens := [("a")], votes := [], updated := none,
                               source_name := ("text.txt") },
             DocOp.applyHighlight (fun _ => []) ("c") 0 0 ("red") none 3].foldl
        (fun acc op => op.step acc)
        { mem := none, disk := none, locked := false }) := by
  have hinit : docInv { mem := none, disk := none, locked := false } := by
    intro s hs
    simp at hs
  exact ⟨hinit, votes_tokens_invariant _ _ hinit⟩

/-! ## Claim C4: `retokenize` -/

/-- How `retokenize` resolves the source name (`server.py:159`):
`sanitize(source_name) if source_name else DEFAULT` — the stored
`state.source_name` is never consulted. -/
def retokenizeResolved (override : Option String) : String :=
  match override with
  | some n => if n ≠ "" then sanitize_source_name (some n) else DEFAULT_SOURCE_NAME
  | none => DEFAULT_SOURCE_NAME

/-- The store of the C4 counterexample: a document whose stored source name
is `other.txt` and which already has a token. -/
def c4Store : DocStore :=
  { mem := some { tokens := [("x")], votes := [[]], updated := some 5,
                  source_name := ("other.txt") },
    disk := none, locked := false }

/-- A source-file map for C4 distinguishing the stored name from the
default. -/
def c4Fetch : String → List String :=
  fun n => if n = ("other.txt") then [("O")] else [("D")]

/-- C4, counterexample: calling `retokenize` with no explicit override on a
document whose stored source name is `other.txt` re-tokenizes from the
default `text.txt`, not from the stored name — the resolution claimed
(override, then stored name, then default) does not hold. -/
theorem c4_retokenize_ignores_stored_name :
    (c4Store.mem.getD defaultDocState).source_name = ("other.txt") ∧
    ((retokenize c4Fetch none 7 c4Store).1.source_name ≠ ("other.txt") ∧
      (retokenize c4Fetch none 7 c4Store).1.tokens ≠ c4Fetch ("other.txt")) := by
  refine ⟨rfl, by decide, by decide⟩

/-- C4, amended: `retokenize` resolves the source name as the sanitized
explicit override when one is given and the default otherwise (the stored
name is not consulted), re-tokenizes from it, replaces the tokens, resets
the votes to one empty map per new token, sets the timestamp, and persists
the new state both to the cache and to the snapshot. -/
theorem retokenize_spec (fetch : String → List String) (override : Option String)
    (now : ℚ) (st : DocStore) :
    (retokenize fetch override now st).1 =
      { tokens := fetch (retokenizeResolved override),
        votes := List.replicate (fetch (retokenizeResolved override)).length [],
        updated := some now,
        source_name := retokenizeResolved override } ∧
    (retokenize fetch override now st).2.mem = some (retokenize fetch override now st).1 ∧
    (retokenize fetch override now st).2.disk = some (retokenize fetch override now st).1 := by
  rcases override with _ | n
  · refine ⟨rfl, ?_, ?_⟩ <;>
      · rcases st.mem with _ | s <;>
          simp [retokenize, save_state, get_state, ensureVotesLength,
            retokenizeResolved]
  · by_cases hn : n = ""
    · subst hn
      refine ⟨rfl, ?_, ?_⟩ <;>
        · rcases st.mem with _ | s <;>
            simp [retokenize, save_state, get_state, ensureVotesLength,
              retokenizeResolved]
    · refine ⟨by simp [retokenize, retokenizeResolved, hn], ?_, ?_⟩ <;>
        · rcases st.mem with _ | s <;>
            simp [retokenize, save_state, get_state, ensureVotesLength,
              retokenizeResolved, hn]

/-! ## Claim C6: the lock flag rejects mutations untouched -/

/-- C6: when the lock flag is set, `apply_highlight` and `clear_client`
return `False` for every input and leave the whole store — the cached
in-memory state and the persisted snapshot — exactly as it was.  In the
source the flag test is the first statement of either method
(`server.py:187-188,215-216`), before the mutex is acquired. -/
theorem locked_store_rejects_mutations (fetch : String → List String)
    (client : String) (start stop : Int) (color : String) (t : Option ℚ)
    (now : ℚ) (st : DocStore) (h : st.locked = true) :
    apply_highlight fetch client start stop color t now st = (false, st) ∧
    clear_client fetch client t now st = (false, st) := by
  constructor
  · simp [apply_highlight, h]
  · simp [clear_client, h]

theorem locked_store_rejects_mutations_witness :
    ({ mem := none, disk := none, locked := true } : DocStore).locked = true ∧
    apply_highlight (fun _ => []) ("c") 0 2 ("red") none 5
        { mem := none, disk := none, locked := true } =
      (false, { mem := none, disk := none, locked := true }) ∧
    clear_client (fun _ => []) ("c") none 5
        { mem := none, disk := none, locked := true } =
      (false, { mem := none, disk := none, locked := true }) := by
  refine ⟨rfl, ?_, ?_⟩
  · exact (locked_store_rejects_mutations (fun _ => []) ("c") 0 2 ("red")
      none 5 { mem := none, disk := none, locked := true } rfl).1
  · exact (locked_store_rejects_mutations (fun _ => []) ("c") 0 2 ("red")
      none 5 { mem := none, disk := none, locked := true } rfl).2

/-! ## Claim C7: reversed ranges behave as the swapped arguments -/

theorem swap_pair_eq (a b : Nat) :
    (if a > b then (b, a) else (a, b)) = (if b > a then (a, b) else (b, a)) := by
  split_ifs with h1 h2 h2
  · omega
  · rfl
  · rfl
  · have h : a = b := by omega
    subst h
    rfl

/-- C7: `apply_highlight` with `start > end` produces exactly the same
return value and the same resulting store as the call with the two bounds
swapped (the source clamps both bounds and then swaps them when reversed,
`server.py:193-197`). -/
theorem apply_highlight_swap (fetch : String → List String) (client : String)
    (start stop : Int) (color : String) (t : Option ℚ) (now : ℚ)
    (st : DocStore) (h : start > stop) :
    apply_highlight fetch client start stop color t now st =
      apply_highlight fetch client stop start color t now st := by
  unfold apply_highlight
  simp only [swap_pair_eq]

/-! ## Form manager (`server.py:315-533`) -/

def DEFAULT_FORM_QUESTION : String := "Share your thoughts with us."
def MAX_FORM_ANSWER_LENGTH : Nat := 1024
def MAX_FORM_RESPONSES : Nat := 2000

/-- One submitted response record (`server.py:483-489`). -/
structure FormRecord where
  seq : Int
  clientId : String
  answer : String
  question : String
  submitted : ℚ
deriving DecidableEq

/-- `FormState` dataclass (`server.py:315-325`); responses are the record
list in submission order. -/
structure FormState where
  form_id : String
  question : String
  cooldown : ℚ
  allow_repeat : Bool
  locked : Bool
  responses : List FormRecord
  last_by_client : List (String × ℚ)
  next_seq : Int
  updated : Option ℚ
deriving DecidableEq

/-- `FormError` (`server.py:328-333`): machine-readable code, HTTP status,
and the only payload the source ever attaches (`retry_in` on cooldown);
the human-readable message is elided. -/
structure FormError where
  code : String
  status : Nat
  retry_in : Option ℚ
deriving DecidableEq

/-- Python `str.lower()` (ASCII case mapping). -/
def pylower (s : String) : String :=
  String.mk (s.data.map Char.toLower)

/-- Python `str.strip()`: drop whitespace from both ends. -/
def pystrip (s : String) : String :=
  String.mk (((s.data.dropWhile isSpaceChar).reverse.dropWhile
    isSpaceChar).reverse)

/-- Python slicing `s[:n]`. -/
def pytake (n : Nat) (s : String) : String :=
  String.mk (s.data.take n)

/-- Python `x[-maxN:]` applied when the list exceeds `maxN`: keep the most
recent `maxN` entries (`server.py:491-492,727-728`). -/
def keepLast (maxN : Nat) {α : Type} (l : List α) : List α :=
  if l.length > maxN then l.drop (l.length - maxN) else l

/-- `state.last_by_client[client_id] = now`: insertion-ordered dict set. -/
def setLastByClient (l : List (String × ℚ)) (k : String) (v : ℚ) :
    List (String × ℚ) :=
  if (l.lookup k).isSome then
    l.map (fun p => if p.1 = k then (p.1, v) else p)
  else l ++ [(k, v)]

/-- `FormManager.submit` (`server.py:457-497`).  The strip/empty check and
the truncation happen before the lock is taken; all error exits precede any
mutation, so they return the input state. -/
def submit (st : FormState) (client_id : String) (answer : String) (now : ℚ) :
    Except FormError FormRecord × FormState :=
  let trimmed := pystrip answer
  if trimmed = "" then
    (.error { code := ("empty_answer"), status := 400, retry_in := none }, st)
  else
    let trimmed :=
      if trimmed.length > MAX_FORM_ANSWER_LENGTH then
        pytake MAX_FORM_ANSWER_LENGTH trimmed
      else trimmed
    if st.locked then
      (.error { code := ("locked"), status := 423, retry_in := none }, st)
    else if st.cooldown > 0 ∧ (st.last_by_client.lookup client_id).isSome ∧
        now - ((st.last_by_client.lookup client_id).getD 0) < st.cooldown then
      (.error { code := ("cooldown"), status := 429,
                retry_in := some (max 0 (st.cooldown -
                  (now - ((st.last_by_client.lookup client_id).getD 0)))) }, st)
    else if st.allow_repeat = false ∧
        st.responses.any (fun item => item.clientId == client_id) then
      (.error { code := ("repeat_not_allowed"), status := 409,
                retry_in := none }, st)
    else
      let record : FormRecord :=
        { seq := st.next_seq, clientId := client_id, answer := trimmed,
          question := st.question, submitted := now }
      (.ok record,
        { st with
            responses := keepLast MAX_FORM_RESPONSES (st.responses ++ [record]),
            last_by_client := setLastByClient st.last_by_client client_id now,
            next_seq := st.next_seq + 1,
            updated := some now })

/-- C8: an answer whose stripped text exceeds the maximum length is
truncated to the maximum and accepted (record appended, sequence advanced)
rather than rejected, and an empty or whitespace-only answer is rejected
with the `empty_answer` validation error, no record appended and the state
unchanged.  The acceptance half assumes the other business rules pass: the
form is unlocked, the client has no recorded last submission (no cooldown),
and repeats are allowed. -/
theorem submit_trims_long_and_rejects_empty (st : FormState)
    (client answer : String) (now : ℚ) :
    (st.locked = false → st.last_by_client.lookup client = none →
      st.allow_repeat = true →
      (pystrip answer).length > MAX_FORM_ANSWER_LENGTH →
      submit st client answer now =
        (.ok { seq := st.next_seq, clientId := client,
               answer := pytake MAX_FORM_ANSWER_LENGTH (pystrip answer),
               question := st.question, submitted := now },
         { st with
             responses := keepLast MAX_FORM_RESPONSES (st.responses ++
               [{ seq := st.next_seq, clientId := client,
                  answer := pytake MAX_FORM_ANSWER_LENGTH (pystrip answer),
                  question := st.question, submitted := now }]),
             last_by_client := setLastByClient st.last_by_client client now,
             next_seq := st.next_seq + 1,
             updated := some now })) ∧
    (pystrip answer = "" →
      submit st client answer now =
        (.error { code := ("empty_answer"), status := 400, retry_in := none },
         st)) := by
  constructor
  · intro hlock hlast hrep hlen
    have hne : pystrip answer ≠ "" := by
      intro he
      rw [he] at hlen
      simp [MAX_FORM_ANSWER_LENGTH] at hlen
    simp only [submit]
    rw [if_neg hne, if_pos hlen, if_neg (by simp [hlock]),
      if_neg (by simp [hlast]), if_neg (by simp [hrep])]
  · intro he
    simp only [submit]
    rw [if_pos he]

theorem c8_trim_helper :
    (pystrip (String.mk (List.replicate 1025 ('a')))).length
      > MAX_FORM_ANSWER_LENGTH := by
  have hdrop : ∀ n : Nat,
      (List.replicate n ('a')).dropWhile isSpaceChar = List.replicate n ('a') := by
    intro n
    cases n with
    | zero => rfl
    | succ m => rw [List.replicate_succ, List.dropWhile_cons_of_neg (by decide)]
  have hs : pystrip (String.mk (List.replicate 1025 ('a')))
      = String.mk (List.replicate 1025 ('a')) := by
    rw [pystrip]
    exact congrArg String.mk (by
      rw [show (String.mk (List.replicate 1025 ('a'))).data
          = List.replicate 1025 ('a') from rfl]
      rw [hdrop, List.reverse_replicate, hdrop, List.reverse_replicate])
  rw [hs]
  show (List.replicate 1025 ('a')).length > MAX_FORM_ANSWER_LENGTH
  rw [List.length_replicate]
  decide

/-- The default form state, as `_default_state` builds it
(`server.py:351-354`). -/
def c8Form : FormState :=
  { form_id := ("feedback"), question := DEFAULT_FORM_QUESTION,
    cooldown := 0, allow_repeat := true, locked := false, responses := [],
    last_by_client := [], next_seq := 1, updated := none }

theorem submit_trims_long_and_rejects_empty_witness :
    (pystrip (String.mk (List.replicate 1025 ('a')))).length
        > MAX_FORM_ANSWER_LENGTH ∧
    (submit c8Form ("c") (String.mk (List.replicate 1025 ('a'))) 7).1 =
      .ok { seq := 1, clientId := ("c"),
            answer := pytake MAX_FORM_ANSWER_LENGTH
              (pystrip (String.mk (List.replicate 1025 ('a')))),
            question := DEFAULT_FORM_QUESTION, submitted := 7 } ∧
    submit c8Form ("c") ("   ") 7 =
      (.error { code := ("empty_answer"), status := 400, retry_in := none },
       c8Form) := by
  refine ⟨c8_trim_helper, ?_, ?_⟩
  · rw [(submit_trims_long_and_rejects_empty c8Form ("c")
      (String.mk (List.replicate 1025 ('a'))) 7).1 rfl rfl rfl c8_trim_helper]
    rfl
  · exact (submit_trims_long_and_rejects_empty c8Form ("c") ("   ") 7).2
      (by decide)

/-! ## Button panel manager (`server.py:536-780`) -/

def MAX_BUTTON_EVENTS : Nat := 1000

/-- One named button with its independent counters (`server.py:571-575`). -/
structure ButtonInfo where
  label : String
  minus : Int
  plus : Int
deriving DecidableEq

/-- One fire event (`server.py:718-725`). -/
structure ButtonEvent where
  seq : Int
  buttonId : String
  label : String
  direction : String
  clientId : String
  timestamp : ℚ
deriving DecidableEq

/-- `ButtonPanelState` dataclass (`server.py:536-545`); `buttons` is the
insertion-ordered dict of button id to counters. -/
structure ButtonPanelState where
  panel_id : String
  buttons : List (String × ButtonInfo)
  events : List ButtonEvent
  locked : Bool
  cooldown : ℚ
  last_by_client : List (String × ℚ)
  next_seq : Int
  updated : Option ℚ
deriving DecidableEq

/-- `ButtonError` (`server.py:548-553`), like `FormError`. -/
structure ButtonError where
  code : String
  status : Nat
  retry_in : Option ℚ
deriving DecidableEq

/-- `ButtonManager.fire` (`server.py:688-733`).  Checks run in source
order — direction validity, lock flag, button existence, cooldown — and
every error exit precedes every mutation, so errors return the input
state. -/
def fire (st : ButtonPanelState) (client_id button_id direction : String)
    (now : ℚ) : Except ButtonError ButtonEvent × ButtonPanelState :=
  let direction_norm := pylower direction
  if direction_norm ≠ ("minus") ∧ direction_norm ≠ ("plus") then
    (.error { code := ("invalid_direction"), status := 400, retry_in := none },
     st)
  else if st.locked then
    (.error { code := ("locked"), status := 423, retry_in := none }, st)
  else
    match st.buttons.lookup button_id with
    | none =>
        (.error { code := ("unknown_button"), status := 404, retry_in := none },
         st)
    | some info =>
        if st.cooldown > 0 ∧ (st.last_by_client.lookup client_id).isSome ∧
            now - ((st.last_by_client.lookup client_id).getD 0) < st.cooldown
        then
          (.error { code := ("cooldown"), status := 429,
                    retry_in := some (max 0 (st.cooldown -
                      (now - ((st.last_by_client.lookup client_id).getD 0)))) },
           st)
        else
          let info2 :=
            if direction_norm = ("minus") then
              { info with minus := info.minus + 1 }
            else { info with plus := info.plus + 1 }
          let event : ButtonEvent :=
            { seq := st.next_seq, buttonId := button_id, label := info.label,
              direction := direction_norm, clientId := client_id,
              timestamp := now }
          (.ok event,
            { st with
                buttons := st.buttons.map
                  (fun p => if p.1 = button_id then (p.1, info2) else p),
                events := keepLast MAX_BUTTON_EVENTS (st.events ++ [event]),
                last_by_client := setLastByClient st.last_by_client client_id now,
                next_seq := st.next_seq + 1,
                updated := some now })

/-- C9: on a panel that is not lock-flagged, firing a button id that is not
defined produces the `unknown_button` not-found error with status 404 and
returns the panel state exactly as it was — counters, events, sequence
counter and last-action map included.  (The direction must be a valid
`minus`/`plus` up to case, since the source validates the direction before
looking the button up.) -/
theorem fire_unknown_button (st : ButtonPanelState)
    (client button direction : String) (now : ℚ)
    (hdir : pylower direction = ("minus") ∨ pylower direction = ("plus"))
    (hlock : st.locked = false)
    (hbtn : st.buttons.lookup button = none) :
    fire st client button direction now =
      (.error { code := ("unknown_button"), status := 404, retry_in := none },
       st) := by
  have hcond : ¬(pylower direction ≠ ("minus") ∧ pylower direction ≠ ("plus")) := by
    rcases hdir with h | h <;> simp [h]
  simp only [fire]
  rw [if_neg hcond, if_neg (by simp [hlock]), hbtn]

/-- The default panel of the witness, with the four default buttons
(`server.py:52-57,571-575`). -/
def c9Panel : ButtonPanelState :=
  { panel_id := ("main"),
    buttons :=
      [(("suspension"), { label := ("Suspension"), minus := 0, plus := 0 }),
       (("extension"), { label := ("Extension"), minus := 0, plus := 0 }),
       (("reversal"), { label := ("Reversal"), minus := 0, plus := 0 }),
       (("speed"), { label := ("Speed"), minus := 0, plus := 0 })],
    events := [], locked := false, cooldown := 0, last_by_client := [],
    next_seq := 1, updated := none }

theorem fire_unknown_button_witness :
    (pylower ("Plus") = ("minus") ∨ pylower ("Plus") = ("plus")) ∧
    c9Panel.locked = false ∧
    c9Panel.buttons.lookup ("zzz") = none ∧
    fire c9Panel ("c") ("zzz") ("Plus") 7 =
      (.error { code := ("unknown_button"), status := 404, retry_in := none },
       c9Panel) := by
  refine ⟨Or.inr (by decide), rfl, by decide, ?_⟩
  exact fire_unknown_button c9Panel ("c") ("zzz") ("Plus") 7
    (Or.inr (by decide)) rfl (by decide)

theorem apply_highlight_swap_witness :
    (2 : Int) > 1 ∧
    apply_highlight (fun _ => []) ("c") 2 1 ("red") none 5
        { mem := some c1Doc, disk := none, locked := false } =
      apply_highlight (fun _ => []) ("c") 1 2 ("red") none 5
        { mem := some c1Doc, disk := none, locked := false } := by
  exact ⟨by norm_num,
    apply_highlight_swap (fun _ => []) ("c") 2 1 ("red") none 5
      { mem := some c1Doc, disk := none, locked := false } (by norm_num)⟩
